import Mathlib

/-!
Verification of the tiling / halo / chunk-processing core of
`raster_chunk_processing.py`.

The embedding models 2D rasters as `Grid` values (dimensions plus a total
data function into `ℚ`, standing for the floating-point samples whose exact
numeric behaviour is irrelevant to the geometric claims).  Python / numpy
primitives used by the source are modelled explicitly:

* `pyRange stop step`   — `range(0, stop, step)` for `step > 0`;
* `pyResolve len i`     — resolution of a (possibly negative) slice index;
* `pySlice2`            — `a[r0:r1, c0:c1]` numpy slicing;
* `readAsArray`         — `gdal ReadAsArray` on a window (with
  `gdal.UseExceptions()` an out-of-bounds window raises, modelled by `none`);
* `paste`               — the slice assignment
  `super_array[sa_y_start:sa_y_end, sa_x_start:sa_x_end] = read_array`
  (numpy raises on a shape mismatch, modelled by `none`);
* `putmaskEq`           — `np.putmask(a, sub == nd, nd)`, which compares the
  *flat* contents and raises iff the total sizes differ.

`geo` is the edge-clamp computation of `ProcessSuperArray` (source lines
393–440), `processTile` the per-tile pipeline (read → paste → operation →
trim → mask-restore → write target), `tileList` the partition built by
`ParallelRCP` (lines 705–755), and `methodCheck` the option / overlap
validation at the top of `ParallelRCP` (lines 574–634).  `mdenoiseSim` and
`mdenoiseRun` model the control flow of `mdenoise` (lines 202–240).
-/

namespace RCP

/-- A 2D raster / numpy array: row and column counts plus a total data
function (entries outside the bounds are irrelevant). -/
structure Grid where
  rows : ℕ
  cols : ℕ
  data : ℕ → ℕ → ℚ

/-- `np.full((r, c), v)` — a constant grid. -/
def constM (r c : ℕ) (v : ℚ) : Grid := ⟨r, c, fun _ _ => v⟩

/-- A tile of the partition: half-open bounds `[x_start, x_end) × [y_start,
y_end)` in raster coordinates, exactly the fields set on each `Chunk`. -/
structure Tile where
  x_start : ℕ
  y_start : ℕ
  x_end : ℕ
  y_end : ℕ
  deriving DecidableEq

/-- Number of elements of `range(0, stop, step)` for `step > 0`. -/
def numChunks (stop step : ℕ) : ℕ := (stop + step - 1) / step

/-- `range(0, stop, step)` (`step > 0`): the multiples of `step` below
`stop`, in order. -/
def pyRange (stop step : ℕ) : List ℕ := List.range' 0 (numChunks stop step) step

/-- `list(range(0, dim, chunk))` followed by `.append(dim)` — the break
points used by `ParallelRCP` for one axis. -/
def splits (dim chunk : ℕ) : List ℕ := pyRange dim chunk ++ [dim]

/-- Consecutive pairs of a list: the `(splits[i], splits[i+1])` pairs the
tile loops run over. -/
def consecPairs : List ℕ → List (ℕ × ℕ)
  | a :: b :: rest => (a, b) :: consecPairs (b :: rest)
  | _ => []

/-- The tiles enumerated by `ParallelRCP` (outer loop rows, inner loop
cols), with `x_start = col_splits[j]`, `x_end = col_splits[j+1]`,
`y_start = row_splits[i]`, `y_end = row_splits[i+1]`. -/
def tileList (rows cols chunk : ℕ) : List Tile :=
  (consecPairs (splits rows chunk)).flatMap fun rp =>
    (consecPairs (splits cols chunk)).map fun cp =>
      ⟨cp.1, rp.1, cp.2, rp.2⟩

/-- The tile with row index `i` and column index `j` (closed form). -/
def tileAt (chunk rows cols i j : ℕ) : Tile :=
  ⟨j * chunk, i * chunk, min ((j + 1) * chunk) cols, min ((i + 1) * chunk) rows⟩

/-- The top-level dispatch of `ParallelRCP`: tiles are produced only when
both dimensions exceed `chunk_size`; the `else` branch of the source is
`pass` (TODO in the source), so no tile is processed there. -/
def parallelTiles (rows cols chunk : ℕ) : List Tile :=
  if chunk < rows ∧ chunk < cols then tileList rows cols chunk else []

/-- Width of the padded super array: `x_end - x_start + 2 * f2`. -/
def xSizeOf (t : Tile) (f2 : ℕ) : ℕ := t.x_end - t.x_start + 2 * f2

/-- Height of the padded super array: `y_end - y_start + 2 * f2`. -/
def ySizeOf (t : Tile) (f2 : ℕ) : ℕ := t.y_end - t.y_start + 2 * f2

/-- The resolved read window and paste slice for one tile, as computed by
`ProcessSuperArray`. -/
structure Geo where
  read_x_off : Int
  read_y_off : Int
  read_x_size : Int
  read_y_size : Int
  sa_x_start : ℕ
  sa_y_start : ℕ
  sa_x_end : Int
  sa_y_end : Int

/-- One axis of the edge-clamp logic (source lines 397–440): given the
tile's `[start, e)` bounds on that axis, the halo `f2` and the raster
dimension `dim`, produce `(read_off, read_size, sa_start, sa_end)`. -/
def clampAxis (start e f2 dim : ℕ) : Int × Int × ℕ × Int :=
  let size : ℕ := e - start + 2 * f2
  let off : Int := (start : Int) - (f2 : Int)
  if off < 0 then
    (0, (size : Int) - (f2 : Int), f2, (size : Int))
  else if off + (size : Int) > (dim : Int) then
    (off, (size : Int) - (f2 : Int), 0, -(f2 : Int))
  else
    (off, (size : Int), 0, (size : Int))

/-- The full edge-clamp computation for a tile (both axes independent). -/
def geo (t : Tile) (f2 rows cols : ℕ) : Geo :=
  let gx := clampAxis t.x_start t.x_end f2 cols
  let gy := clampAxis t.y_start t.y_end f2 rows
  ⟨gx.1, gy.1, gx.2.1, gy.2.1, gx.2.2.1, gy.2.2.1, gx.2.2.2, gy.2.2.2⟩

/-- Python slice-index resolution for a slice bound `i` against length
`len`: negative indices count from the end, and the result is clamped to
`[0, len]`. -/
def pyResolve (len : ℕ) (i : Int) : ℕ :=
  if i < 0 then ((len : Int) + i).toNat else min i.toNat len

/-- `fh.ReadAsArray(xo, yo, xs, ys)`; with `gdal.UseExceptions()` a window
not contained in the raster raises, modelled as `none`. -/
def readAsArray (src : Grid) (xo yo xs ys : Int) : Option Grid :=
  if 0 ≤ xo ∧ 0 ≤ yo ∧ 0 ≤ xs ∧ 0 ≤ ys ∧ xo + xs ≤ (src.cols : Int) ∧
      yo + ys ≤ (src.rows : Int) then
    some ⟨ys.toNat, xs.toNat, fun r c => src.data (yo.toNat + r) (xo.toNat + c)⟩
  else none

/-- `super_array = np.full((y_size, x_size), s_nodata)` followed by
`super_array[sy:ey, sx:ex] = read_array`.  numpy raises on a shape mismatch
between the target slice and `read_array`, modelled as `none`. -/
def paste (y_size x_size : ℕ) (nd : ℚ) (ra : Grid) (sy sx : ℕ)
    (eyI exI : Int) : Option Grid :=
  let sy' := min sy y_size
  let sx' := min sx x_size
  let ey := pyResolve y_size eyI
  let ex := pyResolve x_size exI
  if ra.rows = ey - sy' ∧ ra.cols = ex - sx' then
    some ⟨y_size, x_size, fun r c =>
      if sy' ≤ r ∧ r < ey ∧ sx' ≤ c ∧ c < ex then
        ra.data (r - sy') (c - sx')
      else nd⟩
  else none

/-- numpy 2D slicing `m[r0:r1I, c0:c1I]` with non-negative starts and
(possibly negative) Int ends. -/
def pySlice2 (m : Grid) (r0 : ℕ) (r1I : Int) (c0 : ℕ) (c1I : Int) : Grid :=
  let r0' := min r0 m.rows
  let r1' := pyResolve m.rows r1I
  let c0' := min c0 m.cols
  let c1' := pyResolve m.cols c1I
  ⟨r1' - r0', c1' - c0', fun r c => m.data (r0' + r) (c0' + c)⟩

/-- `np.putmask(a, sub == nd, nd)`: raises (`none`) iff the total sizes of
`a` and `sub` differ; otherwise masks by *flat* index correspondence. -/
def putmaskEq (a sub : Grid) (nd : ℚ) : Option Grid :=
  if a.rows * a.cols = sub.rows * sub.cols then
    some ⟨a.rows, a.cols, fun r c =>
      if sub.data ((r * a.cols + c) / sub.cols) ((r * a.cols + c) % sub.cols) = nd
      then nd else a.data r c⟩
  else none

/-- Lines 505–516: trim the halo from the operation output
(`new_data[f2:-1*f2, f2:-1*f2]`), trim the super array the same way, and
restore the no-data mask with `np.putmask`. -/
def trimAndMask (new_data super_array : Grid) (f2 : ℕ) (nd : ℚ) : Option Grid :=
  putmaskEq (pySlice2 new_data f2 (-(f2 : Int)) f2 (-(f2 : Int)))
    (pySlice2 super_array f2 (-(f2 : Int)) f2 (-(f2 : Int))) nd

/-- Read the resolved window and paste it into the `noData`-initialised
super array (lines 452–482). -/
def populatedSuper (src : Grid) (nd : ℚ) (t : Tile) (f2 : ℕ) : Option Grid :=
  let g := geo t f2 src.rows src.cols
  (readAsArray src g.read_x_off g.read_y_off g.read_x_size g.read_y_size).bind
    fun read_array =>
      paste (ySizeOf t f2) (xSizeOf t f2) nd read_array
        g.sa_y_start g.sa_x_start g.sa_y_end g.sa_x_end

/-- The whole per-tile pipeline of `ProcessSuperArray`: populate the super
array, run the operation, trim + mask-restore, and produce the target write
`(x_start, y_start, trimmed array)`.  `none` models an exception aborting
the run before this tile's write. -/
def processTile (src : Grid) (op : Grid → Grid) (nd : ℚ) (t : Tile)
    (f2 : ℕ) : Option (ℕ × ℕ × Grid) :=
  (populatedSuper src nd t f2).bind fun super_array =>
    (trimAndMask (op super_array) super_array f2 nd).map fun temp_array =>
      (t.x_start, t.y_start, temp_array)

/-- A tile covers cell `(y, x)` (row `y`, column `x`). -/
def covers (t : Tile) (y x : ℕ) : Prop :=
  t.y_start ≤ y ∧ y < t.y_end ∧ t.x_start ≤ x ∧ x < t.x_end

instance (t : Tile) (y x : ℕ) : Decidable (covers t y x) := by
  unfold covers; infer_instance

/-! ### Arithmetic facts about the break points -/

lemma numChunks_eq_succ {dim chunk : ℕ} (h0 : 0 < chunk) (hd : 0 < dim) :
    numChunks dim chunk = (dim - 1) / chunk + 1 := by
  unfold numChunks
  have h : dim + chunk - 1 = (dim - 1) + chunk := by omega
  rw [h, Nat.add_div_right _ h0]

lemma lt_div_succ_mul (a b : ℕ) (hb : 0 < b) : a < (a / b + 1) * b := by
  have hmod := Nat.div_add_mod a b
  have hlt : a % b < b := Nat.mod_lt a hb
  calc a = b * (a / b) + a % b := hmod.symm
    _ < b * (a / b) + b := Nat.add_lt_add_left hlt _
    _ = (a / b + 1) * b := by ring

lemma le_numChunks_mul {dim chunk : ℕ} (h0 : 0 < chunk) (hd : 0 < dim) :
    dim ≤ numChunks dim chunk * chunk := by
  rw [numChunks_eq_succ h0 hd]
  have h := lt_div_succ_mul (dim - 1) chunk h0
  exact Nat.le_of_pred_lt h

lemma numChunks_pred_mul_lt {dim chunk : ℕ} (h0 : 0 < chunk) (hd : 0 < dim) :
    (numChunks dim chunk - 1) * chunk < dim := by
  rw [numChunks_eq_succ h0 hd, Nat.add_sub_cancel]
  have h := Nat.div_mul_le_self (dim - 1) chunk
  have h2 : dim - 1 < dim := by omega
  exact lt_of_le_of_lt h h2

lemma numChunks_pos {dim chunk : ℕ} (h0 : 0 < chunk) (hd : 0 < dim) :
    0 < numChunks dim chunk := by
  rw [numChunks_eq_succ h0 hd]
  exact Nat.succ_pos _

/-! ### Characterisation of the consecutive break pairs -/

lemma consecPairs_range'_append (c d : ℕ) :
    ∀ n s, consecPairs (List.range' s n c ++ [d]) =
      (List.range n).map fun i =>
        (s + i * c, if i + 1 < n then s + (i + 1) * c else d) := by
  intro n
  induction n with
  | zero => intro s; simp [consecPairs]
  | succ m ih =>
    intro s
    have h1 : List.range' s (m + 1) c ++ [d] =
        s :: (List.range' (s + c) m c ++ [d]) := by
      rw [List.range'_succ]; rfl
    rw [h1]
    cases m with
    | zero => simp [consecPairs, List.range_succ]
    | succ k =>
      have h2 : List.range' (s + c) (k + 1) c ++ [d] =
          (s + c) :: (List.range' (s + c + c) k c ++ [d]) := by
        rw [List.range'_succ]; rfl
      rw [h2]
      show ((s, s + c) :: consecPairs ((s + c) :: (List.range' (s + c + c) k c ++ [d]))) = _
      rw [← h2, ih (s + c)]
      rw [List.range_succ_eq_map (k + 1), List.map_cons, List.map_map]
      congr 1
      · have h4 : (0 : ℕ) + 1 < k + 1 + 1 := by omega
        simp [h4]
      · apply List.map_congr_left
        intro i _
        have h3 : i + 1 < k + 1 ↔ i + 1 + 1 < k + 1 + 1 := by omega
        simp only [Function.comp_apply, Nat.succ_eq_add_one]
        refine Prod.ext ?_ ?_
        · dsimp only
          ring
        · dsimp only
          exact if_congr h3 (by ring) rfl

lemma consecPairs_splits {dim chunk : ℕ} (h0 : 0 < chunk) (hd : chunk < dim) :
    consecPairs (splits dim chunk) =
      (List.range (numChunks dim chunk)).map fun i =>
        (i * chunk, min ((i + 1) * chunk) dim) := by
  have hd0 : 0 < dim := by omega
  unfold splits pyRange
  rw [consecPairs_range'_append]
  apply List.map_congr_left
  intro i hi
  rw [List.mem_range] at hi
  by_cases h : i + 1 < numChunks dim chunk
  · have hle : (i + 1) * chunk ≤ dim := by
      have h1 : (i + 1) * chunk ≤ (numChunks dim chunk - 1) * chunk :=
        Nat.mul_le_mul_right _ (by omega)
      have h2 := numChunks_pred_mul_lt h0 hd0
      omega
    simp [h, Nat.min_eq_left hle]
  · have hi1 : i + 1 = numChunks dim chunk := by omega
    have hge : dim ≤ (i + 1) * chunk := by
      rw [hi1]; exact le_numChunks_mul h0 hd0
    simp [h, Nat.min_eq_right hge]

lemma flatMap_map_left {α β γ : Type} (l : List α) (f : α → β) (g : β → List γ) :
    (l.map f).flatMap g = l.flatMap fun a => g (f a) := by
  induction l with
  | nil => rfl
  | cons a t ih => simp [ih]

lemma tileList_eq {rows cols chunk : ℕ} (h0 : 0 < chunk) (hr : chunk < rows)
    (hc : chunk < cols) :
    tileList rows cols chunk =
      (List.range (numChunks rows chunk)).flatMap fun i =>
        (List.range (numChunks cols chunk)).map fun j =>
          tileAt chunk rows cols i j := by
  unfold tileList
  rw [consecPairs_splits h0 hr, consecPairs_splits h0 hc, flatMap_map_left]
  congr 1
  funext i
  rw [List.map_map]
  rfl

lemma mem_tileList_iff {rows cols chunk : ℕ} (h0 : 0 < chunk)
    (hr : chunk < rows) (hc : chunk < cols) {t : Tile} :
    t ∈ tileList rows cols chunk ↔
      ∃ i < numChunks rows chunk, ∃ j < numChunks cols chunk,
        t = tileAt chunk rows cols i j := by
  rw [tileList_eq h0 hr hc]
  simp only [List.mem_flatMap, List.mem_map, List.mem_range]
  constructor
  · rintro ⟨i, hi, j, hj, rfl⟩
    exact ⟨i, hi, j, hj, rfl⟩
  · rintro ⟨i, hi, j, hj, rfl⟩
    exact ⟨i, hi, j, hj, rfl⟩

/-! ### The partition is an exact, disjoint cover of the raster -/

lemma tileAt_covers_iff {chunk rows cols : ℕ} (h0 : 0 < chunk) {i j y x : ℕ}
    (hy : y < rows) (hx : x < cols) :
    covers (tileAt chunk rows cols i j) y x ↔ i = y / chunk ∧ j = x / chunk := by
  unfold covers tileAt
  simp only [lt_min_iff]
  constructor
  · rintro ⟨h1, ⟨h2, -⟩, h3, h4, -⟩
    constructor
    · exact (Nat.div_eq_of_lt_le h1 h2).symm
    · exact (Nat.div_eq_of_lt_le h3 h4).symm
  · rintro ⟨rfl, rfl⟩
    refine ⟨Nat.div_mul_le_self y chunk, ⟨lt_div_succ_mul y chunk h0, hy⟩,
      Nat.div_mul_le_self x chunk, lt_div_succ_mul x chunk h0, hx⟩

lemma cover_exists_unique {rows cols chunk : ℕ} (h0 : 0 < chunk)
    (hr : chunk < rows) (hc : chunk < cols) {y x : ℕ} (hy : y < rows)
    (hx : x < cols) :
    ∃! t, t ∈ tileList rows cols chunk ∧ covers t y x := by
  have hr0 : 0 < rows := by omega
  have hc0 : 0 < cols := by omega
  refine ⟨tileAt chunk rows cols (y / chunk) (x / chunk), ⟨?_, ?_⟩, ?_⟩
  · rw [mem_tileList_iff h0 hr hc]
    refine ⟨y / chunk, ?_, x / chunk, ?_, rfl⟩
    · rw [Nat.div_lt_iff_lt_mul h0]
      exact lt_of_lt_of_le hy (le_numChunks_mul h0 hr0)
    · rw [Nat.div_lt_iff_lt_mul h0]
      exact lt_of_lt_of_le hx (le_numChunks_mul h0 hc0)
  · exact (tileAt_covers_iff h0 hy hx).mpr ⟨rfl, rfl⟩
  · rintro t' ⟨hmem, hcov⟩
    rw [mem_tileList_iff h0 hr hc] at hmem
    obtain ⟨i, -, j, -, rfl⟩ := hmem
    obtain ⟨rfl, rfl⟩ := (tileAt_covers_iff h0 hy hx).mp hcov
    rfl

lemma tileList_bounds {rows cols chunk : ℕ} (h0 : 0 < chunk)
    (hr : chunk < rows) (hc : chunk < cols) {t : Tile}
    (ht : t ∈ tileList rows cols chunk) :
    t.x_end ≤ cols ∧ t.y_end ≤ rows ∧ t.x_start < t.x_end ∧
      t.y_start < t.y_end := by
  have hr0 : 0 < rows := by omega
  have hc0 : 0 < cols := by omega
  rw [mem_tileList_iff h0 hr hc] at ht
  obtain ⟨i, hi, j, hj, rfl⟩ := ht
  unfold tileAt
  dsimp only
  refine ⟨min_le_right _ _, min_le_right _ _, ?_, ?_⟩
  · apply lt_min
    · have : (j + 1) * chunk = j * chunk + chunk := by ring
      omega
    · have h1 : j * chunk ≤ (numChunks cols chunk - 1) * chunk :=
        Nat.mul_le_mul_right _ (by omega)
      have h2 := numChunks_pred_mul_lt h0 hc0
      omega
  · apply lt_min
    · have : (i + 1) * chunk = i * chunk + chunk := by ring
      omega
    · have h1 : i * chunk ≤ (numChunks rows chunk - 1) * chunk :=
        Nat.mul_le_mul_right _ (by omega)
      have h2 := numChunks_pred_mul_lt h0 hr0
      omega

lemma tileList_nodup {rows cols chunk : ℕ} (h0 : 0 < chunk)
    (hr : chunk < rows) (hc : chunk < cols) :
    (tileList rows cols chunk).Nodup := by
  rw [tileList_eq h0 hr hc]
  apply List.nodup_flatMap.mpr
  constructor
  · intro i _
    apply List.Nodup.map
    · intro j1 j2 he
      have hx : j1 * chunk = j2 * chunk := congrArg Tile.x_start he
      exact Nat.eq_of_mul_eq_mul_right h0 hx
    · exact List.nodup_range _
  · apply List.Pairwise.imp ?_ (List.pairwise_lt_range _)
    intro i1 i2 hlt
    simp only [List.disjoint_left, List.mem_map, List.mem_range]
    rintro t ⟨j1, -, rfl⟩ ⟨j2, -, he⟩
    have hy : i2 * chunk = i1 * chunk := congrArg Tile.y_start he
    have : i2 = i1 := Nat.eq_of_mul_eq_mul_right h0 hy
    omega

/-! ### Dimension lemmas for the per-tile pipeline -/

lemma paste_dims {y_size x_size : ℕ} {nd : ℚ} {ra : Grid} {sy sx : ℕ}
    {eyI exI : Int} {m : Grid}
    (h : paste y_size x_size nd ra sy sx eyI exI = some m) :
    m.rows = y_size ∧ m.cols = x_size := by
  unfold paste at h
  dsimp only at h
  split at h
  · cases h; exact ⟨rfl, rfl⟩
  · cases h

lemma putmaskEq_dims {a sub : Grid} {nd : ℚ} {m : Grid}
    (h : putmaskEq a sub nd = some m) :
    m.rows = a.rows ∧ m.cols = a.cols := by
  unfold putmaskEq at h
  split at h
  · cases h; exact ⟨rfl, rfl⟩
  · cases h

lemma putmaskEq_sizes {a sub : Grid} {nd : ℚ} {m : Grid}
    (h : putmaskEq a sub nd = some m) :
    m.rows * m.cols = sub.rows * sub.cols := by
  unfold putmaskEq at h
  split at h
  · cases h; assumption
  · cases h

lemma populatedSuper_dims {src : Grid} {nd : ℚ} {t : Tile} {f2 : ℕ} {sup : Grid}
    (h : populatedSuper src nd t f2 = some sup) :
    sup.rows = ySizeOf t f2 ∧ sup.cols = xSizeOf t f2 := by
  unfold populatedSuper at h
  dsimp only at h
  cases hr : readAsArray src (geo t f2 src.rows src.cols).read_x_off
      (geo t f2 src.rows src.cols).read_y_off
      (geo t f2 src.rows src.cols).read_x_size
      (geo t f2 src.rows src.cols).read_y_size with
  | none => rw [hr, Option.none_bind] at h; cases h
  | some ra =>
    rw [hr, Option.some_bind] at h
    exact paste_dims h

lemma pyResolve_neg {len f2 : ℕ} (hf : 0 < f2) :
    pyResolve len (-(f2 : Int)) = len - f2 := by
  unfold pyResolve
  rw [if_pos (by omega)]
  omega

lemma trim_rows {m : Grid} {f2 : ℕ} (hf : 0 < f2) :
    (pySlice2 m f2 (-(f2 : Int)) f2 (-(f2 : Int))).rows = m.rows - 2 * f2 := by
  unfold pySlice2
  dsimp only
  rw [pyResolve_neg hf]
  omega

lemma trim_cols {m : Grid} {f2 : ℕ} (hf : 0 < f2) :
    (pySlice2 m f2 (-(f2 : Int)) f2 (-(f2 : Int))).cols = m.cols - 2 * f2 := by
  unfold pySlice2
  dsimp only
  rw [pyResolve_neg hf]
  omega

lemma processTile_some {src : Grid} {op : Grid → Grid} {nd : ℚ} {t : Tile}
    {f2 : ℕ} {w : ℕ × ℕ × Grid}
    (h : processTile src op nd t f2 = some w) :
    ∃ sup temp, populatedSuper src nd t f2 = some sup ∧
      trimAndMask (op sup) sup f2 nd = some temp ∧
      w = (t.x_start, t.y_start, temp) := by
  unfold processTile at h
  cases hs : populatedSuper src nd t f2 with
  | none => rw [hs, Option.none_bind] at h; cases h
  | some sup =>
    rw [hs, Option.some_bind] at h
    cases htm : trimAndMask (op sup) sup f2 nd with
    | none => rw [htm] at h; cases h
    | some temp =>
      rw [htm] at h
      cases h
      exact ⟨sup, temp, rfl, htm, rfl⟩

lemma trimAndMask_dims {nw sup : Grid} {f2 : ℕ} {nd : ℚ} {temp : Grid}
    (hf : 0 < f2) (h : trimAndMask nw sup f2 nd = some temp) :
    temp.rows = nw.rows - 2 * f2 ∧ temp.cols = nw.cols - 2 * f2 := by
  unfold trimAndMask at h
  have hd := putmaskEq_dims h
  rw [trim_rows hf, trim_cols hf] at hd
  exact hd

lemma processTile_write_dims {src : Grid} {op : Grid → Grid} {nd : ℚ}
    {t : Tile} {f2 : ℕ} {w : ℕ × ℕ × Grid} (hf : 0 < f2)
    (hop : ∀ m, (op m).rows = m.rows ∧ (op m).cols = m.cols)
    (h : processTile src op nd t f2 = some w) :
    w.1 = t.x_start ∧ w.2.1 = t.y_start ∧
      w.2.2.rows = t.y_end - t.y_start ∧ w.2.2.cols = t.x_end - t.x_start := by
  obtain ⟨sup, temp, hs, htm, rfl⟩ := processTile_some h
  obtain ⟨hsr, hsc⟩ := populatedSuper_dims hs
  obtain ⟨htr, htc⟩ := trimAndMask_dims hf htm
  obtain ⟨hor, hoc⟩ := hop sup
  refine ⟨rfl, rfl, ?_, ?_⟩
  · rw [htr, hor, hsr]
    unfold ySizeOf
    omega
  · rw [htc, hoc, hsc]
    unfold xSizeOf
    omega

/-- C1: for every `rows, cols, chunk_size` with `rows > chunk_size` and
`cols > chunk_size` (and a positive chunk size and halo, as in any actual
run), the tiles generated by `ParallelRCP` — the Cartesian product of
consecutive `row_splits`/`col_splits` break pairs — are pairwise-disjoint
half-open rectangles whose union exactly equals `[0,rows) × [0,cols)`
(each raster cell is covered by exactly one tile of the duplicate-free tile
list, and every tile lies inside the raster), and each tile's trimmed
result is written at offset `(x_start, y_start)` with exactly the tile's
native `(y_end - y_start, x_end - x_start)` extent whenever the tile's
pipeline reaches its write (for any shape-preserving operation), so the
write rectangles tile the output raster with no overlaps and no gaps. -/
theorem partition_exact_cover_and_writes (rows cols chunk f2 : ℕ)
    (h0 : 0 < chunk) (hr : chunk < rows) (hc : chunk < cols) (hf : 0 < f2) :
    (∀ y x, y < rows → x < cols →
      ∃! t, t ∈ tileList rows cols chunk ∧ covers t y x) ∧
    (tileList rows cols chunk).Nodup ∧
    (∀ t ∈ tileList rows cols chunk,
      t.x_end ≤ cols ∧ t.y_end ≤ rows ∧ t.x_start < t.x_end ∧
        t.y_start < t.y_end) ∧
    (∀ t ∈ tileList rows cols chunk, ∀ (src : Grid) (op : Grid → Grid)
      (nd : ℚ) (w : ℕ × ℕ × Grid),
      (∀ m, (op m).rows = m.rows ∧ (op m).cols = m.cols) →
      processTile src op nd t f2 = some w →
      w.1 = t.x_start ∧ w.2.1 = t.y_start ∧
        w.2.2.rows = t.y_end - t.y_start ∧ w.2.2.cols = t.x_end - t.x_start) := by
  refine ⟨?_, tileList_nodup h0 hr hc, ?_, ?_⟩
  · intro y x hy hx
    exact cover_exists_unique h0 hr hc hy hx
  · intro t ht
    exact tileList_bounds h0 hr hc ht
  · intro t _ src op nd w hop h
    exact processTile_write_dims hf hop h

/-- Witness for C1 at `rows = cols = 5`, `chunk_size = 2`, `f2 = 2`. -/
theorem partition_exact_cover_and_writes_witness :
    (0 < 2 ∧ 2 < 5 ∧ 0 < 2) ∧
    ((∀ y x, y < 5 → x < 5 →
      ∃! t, t ∈ tileList 5 5 2 ∧ covers t y x) ∧
    (tileList 5 5 2).Nodup ∧
    (∀ t ∈ tileList 5 5 2,
      t.x_end ≤ 5 ∧ t.y_end ≤ 5 ∧ t.x_start < t.x_end ∧
        t.y_start < t.y_end) ∧
    (∀ t ∈ tileList 5 5 2, ∀ (src : Grid) (op : Grid → Grid)
      (nd : ℚ) (w : ℕ × ℕ × Grid),
      (∀ m, (op m).rows = m.rows ∧ (op m).cols = m.cols) →
      processTile src op nd t 2 = some w →
      w.1 = t.x_start ∧ w.2.1 = t.y_start ∧
        w.2.2.rows = t.y_end - t.y_start ∧ w.2.2.cols = t.x_end - t.x_start)) :=
  ⟨⟨by decide, by decide, by decide⟩,
    partition_exact_cover_and_writes 5 5 2 2 (by decide) (by decide)
      (by decide) (by decide)⟩

/-- C5: for a raster with `rows ≤ chunk_size` and `cols ≤ chunk_size`
(here 3×3 with `chunk_size = 4`), `ParallelRCP` takes its `else` branch,
which is `pass` with a `TODO: finish this else path` comment: no tile at
all is processed and nothing is ever written to the target raster, contrary
to the claim that the whole raster is processed as a single tile. -/
theorem single_tile_path_skipped : parallelTiles 3 3 4 = [] := by decide

/-- C10: with `overlap = 0` the halo is `f2 = 2 * 0 = 0`, and the trim
slice `new_data[f2:-1*f2, f2:-1*f2]` resolves to `new_data[0:0, 0:0]` — an
empty array.  Every tile whose pipeline reaches its write therefore writes
a 0×0 array: the computed result is lost instead of written at the tile's
native extent.  The concrete conjunct runs the whole pipeline on a 5×5
raster with tile `[0,2)×[0,2)` and shows the write is `(0, 0)`-sized. -/
theorem zero_overlap_write_empty :
    (∀ (src : Grid) (op : Grid → Grid) (nd : ℚ) (t : Tile),
      (processTile src op nd t 0).elim True fun w =>
        w.2.2.rows = 0 ∧ w.2.2.cols = 0) ∧
    (processTile (constM 5 5 3) (fun m => m) 0 ⟨0, 0, 2, 2⟩ 0).map
        (fun w => (w.1, w.2.1, w.2.2.rows, w.2.2.cols)) = some (0, 0, 0, 0) := by
  constructor
  · intro src op nd t
    cases h : processTile src op nd t 0 with
    | none => exact trivial
    | some w =>
      obtain ⟨sup, temp, -, htm, rfl⟩ := processTile_some h
      unfold trimAndMask at htm
      have hd := putmaskEq_dims htm
      unfold pySlice2 pyResolve at hd
      simp at hd
      exact hd
  · decide

/-! ### C2: edge clamping at the top-left corner -/

lemma clampAxis_left {e f2 dim : ℕ} (hf : 0 < f2) :
    clampAxis 0 e f2 dim =
      (0, (e : Int) + f2, f2, (e : Int) + 2 * f2) := by
  unfold clampAxis
  dsimp only
  rw [if_pos (by omega : ((0 : ℕ) : Int) - (f2 : Int) < 0)]
  have h1 : ((e - 0 + 2 * f2 : ℕ) : Int) - (f2 : Int) = (e : Int) + f2 := by
    push_cast
    omega
  have h2 : ((e - 0 + 2 * f2 : ℕ) : Int) = (e : Int) + 2 * f2 := by
    push_cast
    omega
  rw [h1, h2]

lemma paste_data {y_size x_size : ℕ} {nd : ℚ} {ra : Grid} {sy sx : ℕ}
    {eyI exI : Int} {m : Grid}
    (h : paste y_size x_size nd ra sy sx eyI exI = some m) :
    ∀ r c, m.data r c =
      if min sy y_size ≤ r ∧ r < pyResolve y_size eyI ∧
          min sx x_size ≤ c ∧ c < pyResolve x_size exI then
        ra.data (r - min sy y_size) (c - min sx x_size)
      else nd := by
  unfold paste at h
  dsimp only at h
  split at h
  · cases h; intro r c; rfl
  · cases h

/-- C2: for a tile touching the raster's top-left corner
(`x_start = 0`, `y_start = 0`) with halo `f2` (and a read window that fits,
i.e. the paste actually happens), after the edge-clamp computation and the
paste of the read data into the `noData`-initialised super array, the first
`f2` rows and first `f2` columns of the buffer still equal the no-data
sentinel, and every other cell of the buffer equals the corresponding
source raster cell `(r - f2, c - f2)`. -/
theorem topleft_clamp (src : Grid) (nd : ℚ) (x_end y_end f2 : ℕ)
    (hf : 0 < f2) (hx : x_end + f2 ≤ src.cols) (hy : y_end + f2 ≤ src.rows) :
    (populatedSuper src nd ⟨0, 0, x_end, y_end⟩ f2).elim False fun sup =>
      sup.rows = y_end + 2 * f2 ∧ sup.cols = x_end + 2 * f2 ∧
      ∀ r c, r < y_end + 2 * f2 → c < x_end + 2 * f2 →
        ((r < f2 ∨ c < f2) → sup.data r c = nd) ∧
        (f2 ≤ r → f2 ≤ c → sup.data r c = src.data (r - f2) (c - f2)) := by
  unfold populatedSuper
  dsimp only
  have hg : geo ⟨0, 0, x_end, y_end⟩ f2 src.rows src.cols =
      ⟨0, 0, (x_end : Int) + f2, (y_end : Int) + f2, f2, f2,
        (x_end : Int) + 2 * f2, (y_end : Int) + 2 * f2⟩ := by
    unfold geo
    rw [clampAxis_left hf, clampAxis_left hf]
  rw [hg]
  have hread : readAsArray src 0 0 ((x_end : Int) + f2) ((y_end : Int) + f2) =
      some ⟨((y_end : Int) + f2).toNat, ((x_end : Int) + f2).toNat,
        fun r c => src.data ((0 : Int).toNat + r) ((0 : Int).toNat + c)⟩ := by
    unfold readAsArray
    rw [if_pos]
    refine ⟨le_refl 0, le_refl 0, by omega, by omega, by omega, by omega⟩
  rw [hread, Option.some_bind]
  rw [show ySizeOf ⟨0, 0, x_end, y_end⟩ f2 = y_end + 2 * f2 from rfl]
  rw [show xSizeOf ⟨0, 0, x_end, y_end⟩ f2 = x_end + 2 * f2 from rfl]
  have hpry : pyResolve (y_end + 2 * f2) ((y_end : Int) + 2 * f2) =
      y_end + 2 * f2 := by
    unfold pyResolve
    rw [if_neg (by omega)]
    omega
  have hprx : pyResolve (x_end + 2 * f2) ((x_end : Int) + 2 * f2) =
      x_end + 2 * f2 := by
    unfold pyResolve
    rw [if_neg (by omega)]
    omega
  cases hps : paste (y_end + 2 * f2) (x_end + 2 * f2) nd
      ⟨((y_end : Int) + f2).toNat, ((x_end : Int) + f2).toNat,
        fun r c => src.data ((0 : Int).toNat + r) ((0 : Int).toNat + c)⟩
      f2 f2 ((y_end : Int) + 2 * f2) ((x_end : Int) + 2 * f2) with
  | none =>
    exfalso
    unfold paste at hps
    dsimp only at hps
    rw [hpry, hprx, if_pos] at hps
    · cases hps
    · constructor
      · show ((y_end : Int) + f2).toNat = y_end + 2 * f2 - min f2 (y_end + 2 * f2)
        omega
      · show ((x_end : Int) + f2).toNat = x_end + 2 * f2 - min f2 (x_end + 2 * f2)
        omega
  | some sup =>
    rw [Option.elim_some]
    obtain ⟨hsr, hsc⟩ := paste_dims hps
    have hdata := paste_data hps
    refine ⟨hsr, hsc, ?_⟩
    intro r c hr hc
    rw [hpry, hprx] at hdata
    have hminy : min f2 (y_end + 2 * f2) = f2 := by omega
    have hminx : min f2 (x_end + 2 * f2) = f2 := by omega
    rw [hminy, hminx] at hdata
    constructor
    · intro hrc
      rw [hdata r c, if_neg (by omega)]
    · intro h1 h2
      rw [hdata r c, if_pos ⟨h1, by omega, h2, by omega⟩]
      dsimp only
      rw [show ((0 : Int).toNat) = 0 from rfl, Nat.zero_add, Nat.zero_add]

/-- Witness for C2: a 6×6 source, tile `[0,2)×[0,2)`, halo `f2 = 2`. -/
theorem topleft_clamp_witness :
    (0 < 2 ∧ 2 + 2 ≤ (constM 6 6 1).cols ∧ 2 + 2 ≤ (constM 6 6 1).rows) ∧
    ((populatedSuper (constM 6 6 1) 0 ⟨0, 0, 2, 2⟩ 2).elim False fun sup =>
      sup.rows = 2 + 2 * 2 ∧ sup.cols = 2 + 2 * 2 ∧
      ∀ r c, r < 2 + 2 * 2 → c < 2 + 2 * 2 →
        ((r < 2 ∨ c < 2) → sup.data r c = 0) ∧
        (2 ≤ r → 2 ≤ c → sup.data r c = (constM 6 6 1).data (r - 2) (c - 2))) :=
  ⟨⟨by decide, by decide, by decide⟩,
    topleft_clamp (constM 6 6 1) 0 2 2 2 (by decide) (by decide) (by decide)⟩

/-! ### C3: resolved read windows versus the raster bounds -/

/-- C3 counterexample: with `rows = cols = 5`, `chunk_size = 4`,
`overlap = 1` (`f2 = 2`), the raster is split into two chunks per
direction, yet the top-left tile `[0,4)×[0,4)` is clamped only on its low
side: the resolved x read window is `[0, 6)`, which exceeds `cols = 5`.
The pipeline consequently aborts on this tile (GDAL raises): a resolved
read window out of raster bounds does occur. -/
theorem read_window_oob_example :
    (⟨0, 0, 4, 4⟩ : Tile) ∈ tileList 5 5 4 ∧
    (geo ⟨0, 0, 4, 4⟩ 2 5 5).read_x_off +
      (geo ⟨0, 0, 4, 4⟩ 2 5 5).read_x_size > (5 : Int) ∧
    (processTile (constM 5 5 0) (fun m => m) 0 ⟨0, 0, 4, 4⟩ 2).isNone = true := by
  decide

lemma clampAxis_in_bounds {s e chunk f2 dim : ℕ} (hdf : chunk + f2 ≤ dim)
    (he1 : e ≤ dim) (he2 : e ≤ s + chunk) (hse : s ≤ e) :
    0 ≤ (clampAxis s e f2 dim).1 ∧ 0 ≤ (clampAxis s e f2 dim).2.1 ∧
      (clampAxis s e f2 dim).1 + (clampAxis s e f2 dim).2.1 ≤ (dim : Int) := by
  unfold clampAxis
  dsimp only
  split_ifs with h1 h2 <;> refine ⟨?_, ?_, ?_⟩ <;> dsimp only <;> omega

/-- C3 amended: for every tile of the partition, *provided additionally*
`chunk_size + f2 ≤ rows` and `chunk_size + f2 ≤ cols` (so the halo fits
next to the first/last break), the resolved read window
`(read_x_off, read_y_off, read_x_size, read_y_size)` lies entirely within
the raster bounds.  Without that margin the claim is false
(`read_window_oob_example`). -/
theorem read_window_in_bounds (rows cols chunk f2 : ℕ) (t : Tile)
    (h0 : 0 < chunk) (hr : chunk < rows) (hc : chunk < cols)
    (hfr : chunk + f2 ≤ rows) (hfc : chunk + f2 ≤ cols)
    (ht : t ∈ tileList rows cols chunk) :
    0 ≤ (geo t f2 rows cols).read_x_off ∧ 0 ≤ (geo t f2 rows cols).read_y_off ∧
    0 ≤ (geo t f2 rows cols).read_x_size ∧
    0 ≤ (geo t f2 rows cols).read_y_size ∧
    (geo t f2 rows cols).read_x_off + (geo t f2 rows cols).read_x_size ≤
      (cols : Int) ∧
    (geo t f2 rows cols).read_y_off + (geo t f2 rows cols).read_y_size ≤
      (rows : Int) := by
  have hb := tileList_bounds h0 hr hc ht
  rw [mem_tileList_iff h0 hr hc] at ht
  obtain ⟨i, hi, j, hj, rfl⟩ := ht
  have hex : min ((j + 1) * chunk) cols ≤ j * chunk + chunk :=
    le_trans (min_le_left _ _) (le_of_eq (by ring))
  have hey : min ((i + 1) * chunk) rows ≤ i * chunk + chunk :=
    le_trans (min_le_left _ _) (le_of_eq (by ring))
  have hx := @clampAxis_in_bounds (j * chunk) (min ((j + 1) * chunk) cols)
    chunk f2 cols hfc (min_le_right _ _) hex (le_of_lt hb.2.2.1)
  have hy := @clampAxis_in_bounds (i * chunk) (min ((i + 1) * chunk) rows)
    chunk f2 rows hfr (min_le_right _ _) hey (le_of_lt hb.2.2.2)
  exact ⟨hx.1, hy.1, hx.2.1, hy.2.1, hx.2.2, hy.2.2⟩

/-- Witness for the amended C3 at `rows = cols = 5`, `chunk = 2`, `f2 = 1`,
tile `[0,2)×[0,2)`. -/
theorem read_window_in_bounds_witness :
    (0 < 2 ∧ 2 < 5 ∧ 2 + 1 ≤ 5 ∧ (⟨0, 0, 2, 2⟩ : Tile) ∈ tileList 5 5 2) ∧
    (0 ≤ (geo ⟨0, 0, 2, 2⟩ 1 5 5).read_x_off ∧
    0 ≤ (geo ⟨0, 0, 2, 2⟩ 1 5 5).read_y_off ∧
    0 ≤ (geo ⟨0, 0, 2, 2⟩ 1 5 5).read_x_size ∧
    0 ≤ (geo ⟨0, 0, 2, 2⟩ 1 5 5).read_y_size ∧
    (geo ⟨0, 0, 2, 2⟩ 1 5 5).read_x_off +
      (geo ⟨0, 0, 2, 2⟩ 1 5 5).read_x_size ≤ (5 : Int) ∧
    (geo ⟨0, 0, 2, 2⟩ 1 5 5).read_y_off +
      (geo ⟨0, 0, 2, 2⟩ 1 5 5).read_y_size ≤ (5 : Int)) :=
  ⟨⟨by decide, by decide, by decide, by decide⟩,
    read_window_in_bounds 5 5 2 1 ⟨0, 0, 2, 2⟩ (by decide) (by decide)
      (by decide) (by decide) (by decide) (by decide)⟩

/-! ### C4: no-data mask restoration -/

/-- C4: for any padded-shape operation output `nw` (arbitrary values
everywhere), the post-processing step (`trimAndMask`, source lines 505–516)
yields an output whose cell `(r, c)` is the no-data sentinel exactly when
the pre-operation, pre-halo input cell — `super_array` trimmed by `f2` on
each side, i.e. `sup.data (f2 + r) (f2 + c)` — equals `s_nodata`, and
equals the operation's value at every other cell. -/
theorem mask_restoration (sup nw : Grid) (f2 : ℕ) (nd : ℚ)
    (hf : 0 < f2) (hrw : nw.rows = sup.rows) (hcw : nw.cols = sup.cols)
    (hr2 : 2 * f2 ≤ sup.rows) (hc2 : 2 * f2 ≤ sup.cols) :
    (trimAndMask nw sup f2 nd).elim False fun m =>
      m.rows = sup.rows - 2 * f2 ∧ m.cols = sup.cols - 2 * f2 ∧
      ∀ r c, r < m.rows → c < m.cols →
        m.data r c = if sup.data (f2 + r) (f2 + c) = nd then nd
          else nw.data (f2 + r) (f2 + c) := by
  unfold trimAndMask
  have htr : (pySlice2 nw f2 (-(f2 : Int)) f2 (-(f2 : Int))).rows
      = sup.rows - 2 * f2 := by rw [trim_rows hf, hrw]
  have htc : (pySlice2 nw f2 (-(f2 : Int)) f2 (-(f2 : Int))).cols
      = sup.cols - 2 * f2 := by rw [trim_cols hf, hcw]
  have hsr : (pySlice2 sup f2 (-(f2 : Int)) f2 (-(f2 : Int))).rows
      = sup.rows - 2 * f2 := trim_rows hf
  have hsc : (pySlice2 sup f2 (-(f2 : Int)) f2 (-(f2 : Int))).cols
      = sup.cols - 2 * f2 := trim_cols hf
  unfold putmaskEq
  rw [if_pos (by rw [htr, htc, hsr, hsc])]
  rw [Option.elim_some]
  refine ⟨htr, htc, ?_⟩
  intro r c hrlt hclt
  rw [htr] at hrlt
  rw [htc] at hclt
  dsimp only
  have hw : 0 < sup.cols - 2 * f2 := by omega
  have hdiv : (r * (pySlice2 nw f2 (-(f2 : Int)) f2 (-(f2 : Int))).cols + c) /
      (pySlice2 sup f2 (-(f2 : Int)) f2 (-(f2 : Int))).cols = r := by
    rw [htc, hsc, mul_comm, Nat.mul_add_div hw, Nat.div_eq_of_lt hclt]
    omega
  have hmod : (r * (pySlice2 nw f2 (-(f2 : Int)) f2 (-(f2 : Int))).cols + c) %
      (pySlice2 sup f2 (-(f2 : Int)) f2 (-(f2 : Int))).cols = c := by
    rw [htc, hsc, mul_comm r (sup.cols - 2 * f2), Nat.mul_add_mod,
      Nat.mod_eq_of_lt hclt]
  rw [hdiv, hmod]
  have hsubdata : (pySlice2 sup f2 (-(f2 : Int)) f2 (-(f2 : Int))).data r c
      = sup.data (f2 + r) (f2 + c) := by
    show sup.data (min f2 sup.rows + r) (min f2 sup.cols + c) = _
    rw [Nat.min_eq_left (by omega), Nat.min_eq_left (by omega)]
  have hnwdata : (pySlice2 nw f2 (-(f2 : Int)) f2 (-(f2 : Int))).data r c
      = nw.data (f2 + r) (f2 + c) := by
    show nw.data (min f2 nw.rows + r) (min f2 nw.cols + c) = _
    rw [Nat.min_eq_left (by omega), Nat.min_eq_left (by omega)]
  rw [hsubdata, hnwdata]

/-- Witness for C4: 4×4 buffers, `f2 = 1`. -/
theorem mask_restoration_witness :
    (0 < 1 ∧ (constM 4 4 7).rows = (constM 4 4 5).rows ∧
      (constM 4 4 7).cols = (constM 4 4 5).cols ∧
      2 * 1 ≤ (constM 4 4 5).rows ∧ 2 * 1 ≤ (constM 4 4 5).cols) ∧
    ((trimAndMask (constM 4 4 7) (constM 4 4 5) 1 0).elim False fun m =>
      m.rows = (constM 4 4 5).rows - 2 * 1 ∧
      m.cols = (constM 4 4 5).cols - 2 * 1 ∧
      ∀ r c, r < m.rows → c < m.cols →
        m.data r c = if (constM 4 4 5).data (1 + r) (1 + c) = 0 then 0
          else (constM 4 4 7).data (1 + r) (1 + c)) :=
  ⟨⟨by decide, by decide, by decide, by decide, by decide⟩,
    mask_restoration (constM 4 4 5) (constM 4 4 7) 1 0 (by decide) (by decide)
      (by decide) (by decide) (by decide)⟩

/-! ### C7: shape mismatch between operation output and padded input -/

/-- C7 counterexample: `np.putmask` compares only the *total sizes* of the
trimmed result and the trimmed input, not their shapes.  On a 20×20 raster
with tile `[5,14)×[5,9)` (native 4×9) and `f2 = 2` (padded input 8×13), an
operation returning a 10×10 array (shape ≠ padded input's 8×13) trims to
6×6 = 36 cells, which matches the trimmed input's 4×9 = 36 cells, so the
pipeline does NOT fail: the 6×6 result is silently written at
`(x_start, y_start) = (5, 5)` instead of the tile's native 4×9 extent. -/
theorem shape_mismatch_written :
    ((fun _ => constM 10 10 7) (constM 8 13 1) : Grid).rows ≠ 8 ∧
    (processTile (constM 20 20 1) (fun _ => constM 10 10 7) 0
        ⟨5, 5, 14, 9⟩ 2).map
      (fun w => (w.1, w.2.1, w.2.2.rows, w.2.2.cols)) = some (5, 5, 6, 6) := by
  constructor
  · decide
  · decide

/-- C7 amended: a successful write always carries the tile's offsets and
exactly the trimmed input's total cell count
`(ySize - 2*f2) * (xSize - 2*f2)` — so an operation output whose trimmed
size differs makes `np.putmask` raise and the run abort before the write —
but the *shape* is not checked: an output of a different shape with a
coincidentally equal trimmed size is silently written with the wrong extent
(`shape_mismatch_written`). -/
theorem write_size_guard (src : Grid) (op : Grid → Grid) (nd : ℚ) (t : Tile)
    (f2 : ℕ) (hf : 0 < f2) :
    (processTile src op nd t f2).elim True fun w =>
      w.1 = t.x_start ∧ w.2.1 = t.y_start ∧
      w.2.2.rows * w.2.2.cols =
        (ySizeOf t f2 - 2 * f2) * (xSizeOf t f2 - 2 * f2) := by
  cases h : processTile src op nd t f2 with
  | none => exact trivial
  | some w =>
    rw [Option.elim_some]
    obtain ⟨sup, temp, hs, htm, rfl⟩ := processTile_some h
    obtain ⟨hsr, hsc⟩ := populatedSuper_dims hs
    unfold trimAndMask at htm
    have hsz := putmaskEq_sizes htm
    rw [trim_rows hf, trim_cols hf, hsr, hsc] at hsz
    exact ⟨rfl, rfl, hsz⟩

/-- Witness for the amended C7: identity operation, 5×5 raster, tile
`[0,2)×[0,2)`, `f2 = 1`. -/
theorem write_size_guard_witness :
    0 < 1 ∧
    ((processTile (constM 5 5 3) (fun m => m) 0 ⟨0, 0, 2, 2⟩ 1).elim True
      fun w => w.1 = (⟨0, 0, 2, 2⟩ : Tile).x_start ∧
        w.2.1 = (⟨0, 0, 2, 2⟩ : Tile).y_start ∧
        w.2.2.rows * w.2.2.cols =
          (ySizeOf ⟨0, 0, 2, 2⟩ 1 - 2 * 1) * (xSizeOf ⟨0, 0, 2, 2⟩ 1 - 2 * 1)) :=
  ⟨by decide,
    write_size_guard (constM 5 5 3) (fun m => m) 0 ⟨0, 0, 2, 2⟩ 1 (by decide)⟩

/-! ### C6, C9: the `mdenoise` wrapper (source lines 166–240) -/

/-- `in_array.mean()` — numpy mean of all cells (exact arithmetic). -/
def meanVal (m : Grid) : ℚ :=
  (∑ r ∈ Finset.range m.rows, ∑ c ∈ Finset.range m.cols, m.data r c) /
    ((m.rows : ℚ) * (m.cols : ℚ))

/-- The `mdenoise` short-circuit (line 203): if `in_array.mean() ==
s_nodata` the input is returned unchanged without calling the external
executable; otherwise the external call (`ext`) runs.  The boolean is
`true` iff the external executable was invoked. -/
def mdenoiseSim (ext : Grid → Grid) (nd : ℚ) (m : Grid) : Bool × Grid :=
  if meanVal m = nd then (false, m) else (true, ext m)

/-- The two temporary `.asc` files `mdenoise` writes next to the external
call. -/
inductive TmpFile
  | source
  | target
  deriving DecidableEq

/-- The temp-file lifecycle of `mdenoise` (lines 202–240): the all-no-data
short-circuit creates nothing; on a successful external call the source and
target files are written, read back and then both removed
(`contextlib.suppress(FileNotFoundError)` around the two `os.remove`
calls); but `subprocess.check_output` is NOT wrapped in `try/finally`, so a
non-zero exit propagates the exception with the already-written source file
still on disk.  The second component is the set of temp files left behind
when the function returns or the exception escapes it. -/
def mdenoiseRun (ext : Grid → Grid) (nd : ℚ) (m : Grid) (callOk : Bool) :
    Option Grid × List TmpFile :=
  if meanVal m = nd then (some m, [])
  else if callOk then (some (ext m), [])
  else (none, [TmpFile.source])

/-- C6 counterexample: the skip test is `mean == s_nodata`, not
"every cell equals `s_nodata`".  The 1×2 array `[-10000, -9998]` with
`s_nodata = -9999` has mean `-9999`, so `mdenoise` skips the external call
(first component `false`) even though the array contains cells different
from the sentinel — contradicting the claim that such an input is never
skipped. -/
theorem mdenoise_skip_mixed_array :
    (mdenoiseSim (fun x => x) (-9999)
      ⟨1, 2, fun _ c => if c = 0 then -10000 else -9998⟩).1 = false ∧
    (⟨1, 2, fun _ c => if c = 0 then -10000 else -9998⟩ : Grid).data 0 1 ≠
      (-9999 : ℚ) := by
  have hmean : meanVal ⟨1, 2, fun _ c => if c = 0 then -10000 else -9998⟩ =
      (-9999 : ℚ) := by
    simp [meanVal, Finset.sum_range_succ]
    norm_num
  constructor
  · unfold mdenoiseSim
    rw [if_pos hmean]
  · decide

/-- C6 amended: an input whose every cell equals `s_nodata` skips the
external call and is returned unchanged; an input whose *mean* differs from
`s_nodata` does invoke the external call; but the test is mean-based, so a
mixed input whose mean coincides with `s_nodata` is also skipped
(`mdenoise_skip_mixed_array`). -/
theorem mdenoise_skip_amended (ext : Grid → Grid) (nd : ℚ) (m : Grid)
    (h1 : 0 < m.rows) (h2 : 0 < m.cols) :
    ((∀ r c, r < m.rows → c < m.cols → m.data r c = nd) →
      mdenoiseSim ext nd m = (false, m)) ∧
    (meanVal m ≠ nd → mdenoiseSim ext nd m = (true, ext m)) := by
  constructor
  · intro hall
    have hsum : (∑ r ∈ Finset.range m.rows, ∑ c ∈ Finset.range m.cols,
        m.data r c) = (m.rows : ℚ) * ((m.cols : ℚ) * nd) := by
      rw [Finset.sum_congr rfl (fun r hr => Finset.sum_congr rfl
        (fun c hc => hall r c (Finset.mem_range.mp hr)
          (Finset.mem_range.mp hc)))]
      simp [Finset.sum_const, mul_comm]
    have hr0 : (m.rows : ℚ) ≠ 0 := Nat.cast_ne_zero.mpr (by omega)
    have hc0 : (m.cols : ℚ) ≠ 0 := Nat.cast_ne_zero.mpr (by omega)
    have hmean : meanVal m = nd := by
      unfold meanVal
      rw [hsum]
      field_simp
      ring
    unfold mdenoiseSim
    rw [if_pos hmean]
  · intro hne
    unfold mdenoiseSim
    rw [if_neg hne]

/-- Witness for the amended C6: the all-sentinel 1×1 array `[4]` with
`nd = 4`. -/
theorem mdenoise_skip_amended_witness :
    (0 < (constM 1 1 4).rows ∧ 0 < (constM 1 1 4).cols) ∧
    (((∀ r c, r < (constM 1 1 4).rows → c < (constM 1 1 4).cols →
        (constM 1 1 4).data r c = 4) →
      mdenoiseSim (fun x => x) 4 (constM 1 1 4) = (false, constM 1 1 4)) ∧
    (meanVal (constM 1 1 4) ≠ 4 →
      mdenoiseSim (fun x => x) 4 (constM 1 1 4) =
        (true, (fun x => x) (constM 1 1 4)))) :=
  ⟨⟨by decide, by decide⟩,
    mdenoise_skip_amended (fun x => x) 4 (constM 1 1 4) (by decide) (by decide)⟩

/-- C9 counterexample: when the external executable exits non-zero
(`callOk = false`) on a tile that is not all-no-data, the exception
propagates out of `mdenoise` with the temporary source `.asc` file still on
disk — the cleanup runs only after a successful call, so temp files are not
removed on every failure path. -/
theorem mdenoise_leak_example :
    (mdenoiseRun (fun x => x) 0 (constM 1 1 5) false).2 = [TmpFile.source] ∧
    (mdenoiseRun (fun x => x) 0 (constM 1 1 5) false).2 ≠ [] := by
  have hmean : meanVal (constM 1 1 5) = (5 : ℚ) := by
    simp [meanVal, constM, Finset.sum_range_succ]
  have hne : meanVal (constM 1 1 5) ≠ (0 : ℚ) := by
    rw [hmean]; norm_num
  constructor
  · unfold mdenoiseRun
    rw [if_neg hne]
    rfl
  · unfold mdenoiseRun
    rw [if_neg hne]
    simp

/-- C9 amended: both temp files are removed on the success path (and the
all-no-data path creates none), but on a failing external call the temp
source file is left behind when the exception propagates. -/
theorem mdenoise_cleanup_amended (ext : Grid → Grid) (nd : ℚ) (m : Grid)
    (h : meanVal m ≠ nd) :
    (mdenoiseRun ext nd m true).2 = [] ∧
    (mdenoiseRun ext nd m false).2 = [TmpFile.source] ∧
    (∀ m2, meanVal m2 = nd → (mdenoiseRun ext nd m2 true).2 = [] ∧
      (mdenoiseRun ext nd m2 false).2 = []) := by
  refine ⟨?_, ?_, ?_⟩
  · unfold mdenoiseRun
    rw [if_neg h]
    rfl
  · unfold mdenoiseRun
    rw [if_neg h]
    rfl
  · intro m2 hm2
    unfold mdenoiseRun
    simp [hm2]

/-- Witness for the amended C9: the 1×1 array `[5]` with `nd = 0`. -/
theorem mdenoise_cleanup_amended_witness :
    meanVal (constM 1 1 5) ≠ 0 ∧
    ((mdenoiseRun (fun x => x) 0 (constM 1 1 5) true).2 = [] ∧
    (mdenoiseRun (fun x => x) 0 (constM 1 1 5) false).2 = [TmpFile.source] ∧
    (∀ m2, meanVal m2 = 0 → (mdenoiseRun (fun x => x) 0 m2 true).2 = [] ∧
      (mdenoiseRun (fun x => x) 0 m2 false).2 = [])) :=
  ⟨by simp [meanVal, constM, Finset.sum_range_succ],
    mdenoise_cleanup_amended (fun x => x) 0 (constM 1 1 5)
      (by simp [meanVal, constM, Finset.sum_range_succ])⟩

/-! ### C8: option checks and overlap enforcement in `ParallelRCP` -/

/-- The closed set of method names dispatched by `ParallelRCP`
(lines 574–634). -/
inductive Method
  | blur_gauss
  | mdenoise
  | clahe
  | TPI
  | blur_mean
  | hillshade
  | skymodel
  deriving DecidableEq

/-- The option dictionary: each key the validation code looks up, `none`
when the caller did not provide it. -/
structure Opts where
  filter_size : Option ℚ
  clip_limit : Option ℚ
  t : Option ℚ
  n : Option ℚ
  v : Option ℚ
  alt : Option ℚ
  az : Option ℚ
  lum_file : Option Unit

/-- The method/option validation at the top of `ParallelRCP`
(lines 574–634): a missing required option raises `ValueError` (`none`);
for `blur_gauss`, `clahe`, `TPI` and `blur_mean`, an `overlap` below
`2 * filter_size` is silently replaced by `2 * filter_size`; the result is
the overlap actually used for tiling. -/
def methodCheck (m : Method) (o : Opts) (overlap : ℚ) : Option ℚ :=
  match m with
  | .blur_gauss =>
    match o.filter_size with
    | none => none
    | some fs => some (if overlap < 2 * fs then 2 * fs else overlap)
  | .mdenoise =>
    match o.t, o.n, o.v with
    | some _, some _, some _ => some overlap
    | _, _, _ => none
  | .clahe =>
    match o.filter_size, o.clip_limit with
    | some fs, some _ => some (if overlap < 2 * fs then 2 * fs else overlap)
    | _, _ => none
  | .TPI =>
    match o.filter_size with
    | none => none
    | some fs => some (if overlap < 2 * fs then 2 * fs else overlap)
  | .blur_mean =>
    match o.filter_size with
    | none => none
    | some fs => some (if overlap < 2 * fs then 2 * fs else overlap)
  | .hillshade =>
    match o.alt, o.az with
    | some _, some _ => some overlap
    | _, _ => none
  | .skymodel =>
    match o.lum_file with
    | some _ => some overlap
    | none => none

/-- Line 716: `f2 = 2 * overlap`, computed from the overlap actually used
after the `methodCheck` adjustment. -/
def effectiveF2 (m : Method) (o : Opts) (overlap : ℚ) : Option ℚ :=
  (methodCheck m o overlap).map fun ov => 2 * ov

/-- C8: for `blur_gauss`, `blur_mean`, `clahe` and `TPI` (with the required
options present), an `overlap < 2 * filter_size` is silently raised to
`2 * filter_size` before partitioning starts, and hence
`f2 = 2 * (2 * filter_size)`; an `overlap ≥ 2 * filter_size` is used
unchanged, with `f2 = 2 * overlap`. -/
theorem overlap_enforcement (o : Opts) (overlap fs : ℚ)
    (hfs : o.filter_size = some fs) (hcl : o.clip_limit.isSome = true) :
    (overlap < 2 * fs →
      methodCheck .blur_gauss o overlap = some (2 * fs) ∧
      methodCheck .blur_mean o overlap = some (2 * fs) ∧
      methodCheck .clahe o overlap = some (2 * fs) ∧
      methodCheck .TPI o overlap = some (2 * fs) ∧
      effectiveF2 .blur_gauss o overlap = some (2 * (2 * fs))) ∧
    (2 * fs ≤ overlap →
      methodCheck .blur_gauss o overlap = some overlap ∧
      methodCheck .blur_mean o overlap = some overlap ∧
      methodCheck .clahe o overlap = some overlap ∧
      methodCheck .TPI o overlap = some overlap ∧
      effectiveF2 .blur_gauss o overlap = some (2 * overlap)) := by
  obtain ⟨cl, hcl'⟩ := Option.isSome_iff_exists.mp hcl
  constructor
  · intro h
    simp [methodCheck, effectiveF2, hfs, hcl', h]
  · intro h
    have h' : ¬(overlap < 2 * fs) := not_lt.mpr h
    simp [methodCheck, effectiveF2, hfs, hcl', h']

/-- Witness for C8: `filter_size = 3`, `clip_limit = 1`, `overlap = 1`. -/
theorem overlap_enforcement_witness :
    ((⟨some 3, some 1, none, none, none, none, none, none⟩ : Opts).filter_size
        = some 3 ∧
      (⟨some 3, some 1, none, none, none, none, none, none⟩ : Opts).clip_limit.isSome
        = true) ∧
    ((1 < 2 * (3 : ℚ) →
      methodCheck .blur_gauss ⟨some 3, some 1, none, none, none, none, none,
          none⟩ 1 = some (2 * 3) ∧
      methodCheck .blur_mean ⟨some 3, some 1, none, none, none, none, none,
          none⟩ 1 = some (2 * 3) ∧
      methodCheck .clahe ⟨some 3, some 1, none, none, none, none, none,
          none⟩ 1 = some (2 * 3) ∧
      methodCheck .TPI ⟨some 3, some 1, none, none, none, none, none,
          none⟩ 1 = some (2 * 3) ∧
      effectiveF2 .blur_gauss ⟨some 3, some 1, none, none, none, none, none,
          none⟩ 1 = some (2 * (2 * 3))) ∧
    (2 * (3 : ℚ) ≤ 1 →
      methodCheck .blur_gauss ⟨some 3, some 1, none, none, none, none, none,
          none⟩ 1 = some 1 ∧
      methodCheck .blur_mean ⟨some 3, some 1, none, none, none, none, none,
          none⟩ 1 = some 1 ∧
      methodCheck .clahe ⟨some 3, some 1, none, none, none, none, none,
          none⟩ 1 = some 1 ∧
      methodCheck .TPI ⟨some 3, some 1, none, none, none, none, none,
          none⟩ 1 = some 1 ∧
      effectiveF2 .blur_gauss ⟨some 3, some 1, none, none, none, none, none,
          none⟩ 1 = some (2 * 1))) :=
  ⟨⟨by decide, by decide⟩,
    overlap_enforcement ⟨some 3, some 1, none, none, none, none, none, none⟩
      1 3 (by decide) (by decide)⟩

end RCP
